import Mathlib

/-!
Verification of the VoicedTrainer repository (Python) against its
natural-language specification.

The Python sources are shallowly embedded: pure string manipulation is
modelled over `String`/`List Char`, the OpenAI collaborator is modelled as
an oracle argument (`Option String` for a call that may fail, or a function
producing the parsed reply), randomness (`random.shuffle`, `random.randint`)
is externalized as explicit arguments, and the interactive session is
modelled as a pure interpreter producing a trace of display/input events.

Python string operations are modelled over ASCII as follows:
`str.strip` is `pyStrip` (drop whitespace at both ends), `str.lower` is
`pyLower` (character-wise `Char.toLower`), `a in b` is `pyContains`
(contiguous-substring test), `s.split(sep, 1)` is `pySplitOnceA`,
`s.split("\n")` is `pySplitNl1`, `s.split("\n\n")` is `pySplitNl2`
(non-overlapping, left-to-right, as in Python), `str.startswith` is
`pyStartsWith`.
-/

namespace VoicedTrainer

/-- Model of Python `str.strip` on a character list: drop whitespace from
both ends. -/
def stripCh (l : List Char) : List Char :=
  ((l.dropWhile Char.isWhitespace).reverse.dropWhile Char.isWhitespace).reverse

/-- Model of Python `str.strip`. -/
def pyStrip (s : String) : String :=
  ⟨stripCh s.data⟩

/-- Model of Python `str.lower` (ASCII). -/
def pyLower (s : String) : String :=
  ⟨s.data.map Char.toLower⟩

/-- Index of the first occurrence of `sep` in `l`, if any (Python
`str.find` restricted to what the sources need). -/
def findOcc (sep : List Char) : List Char → Option Nat
  | [] => if sep = [] then some 0 else none
  | c :: rest =>
    if sep.isPrefixOf (c :: rest) then some 0
    else (findOcc sep rest).map fun n => n + 1

/-- Model of Python `sub in s` (contiguous substring test). -/
def pyContains (s sub : String) : Bool :=
  (findOcc sub.data s.data).isSome

/-- Model of Python `s.split(sep, 1)` returned as a pair.  When `sep` does
not occur the second component is `""` (Python returns a one-element list;
every call site in the sources only reads the second component after
checking that `sep` occurs). -/
def pySplitOnceA (s sep : String) : String × String :=
  match findOcc sep.data s.data with
  | none => (s, "")
  | some i => (⟨s.data.take i⟩, ⟨s.data.drop (i + sep.data.length)⟩)

/-- Model of Python `str.startswith`. -/
def pyStartsWith (s p : String) : Bool :=
  p.data.isPrefixOf s.data

/-- Python `s[0].isdigit()` guarded by non-emptiness (`false` on `""`). -/
def headIsDigit (s : String) : Bool :=
  match s.data with
  | [] => false
  | c :: _ => c.isDigit

/-- Model of Python `s.split("\n")`, accumulator style, on character
lists. -/
def splitNl1Ch : List Char → List Char → List (List Char)
  | [], acc => [acc]
  | c :: rest, acc =>
    if c = '\n' then acc :: splitNl1Ch rest []
    else splitNl1Ch rest (acc ++ [c])

/-- Model of Python `s.split("\n")`. -/
def pySplitNl1 (s : String) : List String :=
  (splitNl1Ch s.data []).map String.mk

/-- Model of Python `s.split("\n\n")` (non-overlapping, left-to-right), on
character lists. -/
def splitNl2Ch : List Char → List Char → List (List Char)
  | [], acc => [acc]
  | [c], acc => [acc ++ [c]]
  | c :: d :: rest, acc =>
    if c = '\n' ∧ d = '\n' then acc :: splitNl2Ch rest []
    else splitNl2Ch (d :: rest) (acc ++ [c])

/-- Model of Python `s.split("\n\n")`. -/
def pySplitNl2 (s : String) : List String :=
  (splitNl2Ch s.data []).map String.mk

/-- Whether `"\n\n"` occurs in the character list (used to state that the
parts produced by `splitNl2Ch` are separator-free). -/
def hasNl2 : List Char → Bool
  | [] => false
  | [_] => false
  | c :: d :: rest => (c = '\n' && d = '\n') || hasNl2 (d :: rest)

/-- The head of the list exists and is not whitespace. -/
def headOKB : List Char → Bool
  | [] => false
  | c :: _ => !c.isWhitespace

/-- The string is non-empty and carries no leading or trailing whitespace
(equivalently, it is non-empty and equals its own `strip`). -/
def noEdgeWSB (s : String) : Bool :=
  headOKB s.data && headOKB s.data.reverse

/-- Model of Python `"\n\n".join(l)` on character lists. -/
def joinNl2Ch : List (List Char) → List Char
  | [] => []
  | [p] => p
  | p :: ps => p ++ '\n' :: '\n' :: joinNl2Ch ps

/-- Model of Python `"\n\n".join(l)`. -/
def joinStrNl2 : List String → String
  | [] => ""
  | [s] => s
  | s :: ss => s ++ "\n\n" ++ joinStrNl2 ss

/-!
## Chunker (`TextPreprocessor._split_text_into_chunks`, preprocessor.py 78-110)
-/

/-- Loop body of `_split_text_into_chunks` (preprocessor.py lines 92-108):
`cur` is `current_chunk`, `chunks` the accumulated output.  A paragraph is
flushed when appending it would exceed `chunkSize` and the buffer is
non-empty (Python truthiness of `current_chunk` is `cur ≠ ""`); flushing
`strip`s the buffer; the final non-empty buffer is flushed as well. -/
def chunkGo (chunkSize : Nat) : List String → String → List String → List String
  | [], cur, chunks => if cur ≠ "" then chunks ++ [pyStrip cur] else chunks
  | p :: ps, cur, chunks =>
    if chunkSize < cur.length + p.length ∧ cur ≠ "" then
      chunkGo chunkSize ps p (chunks ++ [pyStrip cur])
    else
      chunkGo chunkSize ps (if cur ≠ "" then cur ++ "\n\n" ++ p else p) chunks

/-- `TextPreprocessor._split_text_into_chunks(text, chunk_size)`
(preprocessor.py lines 78-110; the source default for `chunk_size` is
3000).  Splits on `"\n\n"` paragraph boundaries and accumulates paragraphs
greedily. -/
def splitTextIntoChunks (text : String) (chunkSize : Nat) : List String :=
  chunkGo chunkSize (pySplitNl2 text) "" []

/-!
## Topic extraction (`TextPreprocessor._extract_topics_from_chunks`,
preprocessor.py 112-309)

Steps 1-3 of the hierarchical extraction (chunk summaries, summary batches,
candidate topics, lines 126-248) only construct the prompt of the final
consolidation call; the returned topic list is determined entirely by the
consolidation reply (lines 258-309).  The collaborator is therefore
modelled as an oracle `Option String`: `some txt` is a successful
consolidation reply, `none` a failed call (the `except` branch, lines
299-309).
-/

/-- A topic record, `{"title": ..., "content": ...}`. -/
structure Topic where
  title : String
  content : String
deriving Repr, DecidableEq

/-- Parse of one line of the consolidation reply (preprocessor.py lines
274-289): a stripped non-empty line starting with a digit and containing
`". "`, or starting with `"- "` or `"* "`, yields a title, with any
`":"`-suffix stripped. -/
def parseFinalTopicLine (lineRaw : String) : Option String :=
  let line := pyStrip lineRaw
  if line = "" then none
  else if headIsDigit line ∧ pyContains line ". " then
    let t := pyStrip (pySplitOnceA line ". ").2
    some (if pyContains t ":" then pyStrip (pySplitOnceA t ":").1 else t)
  else if pyStartsWith line "- " ∨ pyStartsWith line "* " then
    let t := pyStrip ⟨line.data.drop 2⟩
    some (if pyContains t ":" then pyStrip (pySplitOnceA t ":").1 else t)
  else none

/-- The `while len(final_topics) < num_topics` padding loop (preprocessor.py
lines 293-295): append `"Topic k"` placeholders, `k` counting from
`len(final_topics) + 1`. -/
def padTopics (l : List Topic) (n : Nat) : List Topic :=
  l ++ (List.range (n - l.length)).map fun i => ⟨"Topic " ++ toString (l.length + i + 1), ""⟩

/-- `TextPreprocessor._extract_topics_from_chunks`, final-shape behaviour
(preprocessor.py lines 258-309): on a successful consolidation reply, parse
titles line by line, truncate to `numTopics` (line 292) and pad with
`"Topic k"` placeholders (lines 293-295); on a failed call return
`numTopics` placeholder topics (lines 299-309). -/
def extractTopicsFromReply (reply : Option String) (numTopics : Nat) : List Topic :=
  match reply with
  | none => (List.range numTopics).map fun i => ⟨"Topic " ++ toString (i + 1), ""⟩
  | some txt =>
    let parsed := ((pySplitNl1 txt).filterMap parseFinalTopicLine).map fun t => Topic.mk t ""
    padTopics (parsed.take numTopics) numTopics

/-!
## Question quotas (`TextPreprocessor._generate_questions`,
preprocessor.py 421-430)
-/

/-- The per-topic quota loop (preprocessor.py lines 425-430): each topic
gets `perTopic` questions, plus one extra while the (possibly negative)
remainder is positive; the remainder is decremented each time an extra is
handed out. -/
def quotasGo (perTopic : Nat) : Nat → Int → List Nat
  | 0, _ => []
  | t + 1, rem =>
    if 0 < rem then (perTopic + 1) :: quotasGo perTopic t (rem - 1)
    else perTopic :: quotasGo perTopic t rem

/-- The quota computation of `_generate_questions` (preprocessor.py lines
421-423): `questions_per_topic = max(1, num_questions // len(topics))` and
`remaining_questions = num_questions - questions_per_topic * len(topics)`
(an `Int`, since it can be negative when `num_questions < len(topics)`).
Requires `numTopics ≠ 0` (Python would raise `ZeroDivisionError`). -/
def questionQuotas (numTopics numQuestions : Nat) : List Nat :=
  let perTopic := max 1 (numQuestions / numTopics)
  quotasGo perTopic numTopics ((numQuestions : Int) - (perTopic : Int) * (numTopics : Int))

/-!
## Question generation (`TextPreprocessor._generate_questions`,
preprocessor.py 406-484)

Per-topic collaborator replies are an oracle `List (Option String)` aligned
with the topic list (`none` = the call raised, lines 481-482; a missing
entry is treated like a failure).  The per-topic quota
(`topic_question_count`) only enters the prompt text of the collaborator
call (line 433) and never bounds the parse loop, so it does not appear in
the reply-processing model; it is modelled separately as `questionQuotas`.
-/

/-- A question record produced by the preprocessor
(preprocessor.py lines 471-476). -/
structure PQuestion where
  topic_id : Nat
  topic_title : String
  question : String
  answer_guide : String
deriving Repr, DecidableEq

/-- Parse of one `"\n\n"`-separated block containing a `"?"`
(preprocessor.py lines 456-469): text up to the first `"?"` (stripped, with
`"?"` re-appended) is the question, after removing a `"Question:"`/`"Q:"`
prefix or a leading `"N. "` numbering; the remainder (stripped) is the
guide, after removing a `"guide:"`/`"answer:"`/`"good answer:"` prefix. -/
def parseQuestionBlock (block : String) : String × String :=
  let parts := pySplitOnceA block "?"
  let question := pyStrip parts.1 ++ "?"
  let question :=
    if pyContains question ":" ∧
        (pyLower (pyStrip (pySplitOnceA question ":").1) = "question" ∨
         pyLower (pyStrip (pySplitOnceA question ":").1) = "q") then
      pyStrip (pySplitOnceA question ":").2
    else if headIsDigit question ∧ pyContains question ". " then
      pyStrip (pySplitOnceA question ". ").2
    else question
  let guide := pyStrip parts.2
  let guide :=
    if pyStartsWith (pyLower guide) "guide:" ∨ pyStartsWith (pyLower guide) "answer:" ∨
        pyStartsWith (pyLower guide) "good answer:" then
      pyStrip (pySplitOnceA guide ":").2
    else guide
  (question, guide)

/-- The block-acceptance loop for one topic (preprocessor.py lines
451-479): each block containing `"?"` is parsed and appended to the global
`questions` list; after each append, the loop over this topic's blocks
breaks as soon as the GLOBAL list reaches `numQ` entries. -/
def processBlocks (topicIdx : Nat) (title : String) (numQ : Nat) :
    List String → List PQuestion → List PQuestion
  | [], acc => acc
  | b :: rest, acc =>
    if pyContains b "?" then
      let qg := parseQuestionBlock b
      let acc1 := acc ++ [⟨topicIdx, title, qg.1, qg.2⟩]
      if numQ ≤ acc1.length then acc1
      else processBlocks topicIdx title numQ rest acc1
    else processBlocks topicIdx title numQ rest acc

/-- The outer topic loop of `_generate_questions` (preprocessor.py lines
425-484): a failed call (`none` reply) contributes nothing (lines 481-482);
a successful reply is split on `"\n\n"` and fed to the block loop. -/
def genQuestionsGo (numQ : Nat) : Nat → List Topic → List (Option String) →
    List PQuestion → List PQuestion
  | _, [], _, acc => acc
  | idx, _ :: ts, [], acc => genQuestionsGo numQ (idx + 1) ts [] acc
  | idx, _ :: ts, none :: rs, acc => genQuestionsGo numQ (idx + 1) ts rs acc
  | idx, t :: ts, some reply :: rs, acc =>
    genQuestionsGo numQ (idx + 1) ts rs
      (processBlocks idx t.title numQ (pySplitNl2 reply) acc)

/-- `TextPreprocessor._generate_questions(topics, num_questions)`
(preprocessor.py lines 406-484) with the per-topic collaborator replies as
an oracle.  Faithful only for `topics ≠ []` (Python raises
`ZeroDivisionError` on the quota computation otherwise). -/
def genQuestions (topics : List Topic) (replies : List (Option String))
    (numQ : Nat) : List PQuestion :=
  genQuestionsGo numQ 0 topics replies []

/-!
## Preprocess pipeline skeleton (`TextPreprocessor.preprocess`,
preprocessor.py 507-553)

The control flow of `preprocess` is modelled step by step; the
collaborator-heavy middle (`_extract_topics`, `_generate_questions`) is
abstracted into oracle result lists `topics` and `questions` together with
a single `collab` action standing for the whole collaborator-calling
phase, and `_save_processed_data` into a `save` action that succeeds iff
`saveOk` (a raising save propagates out of `preprocess`, modelled as result
`none`; on success `_create_lock_file` emits `mark`).  `chunks` do not
influence the control flow and are omitted. -/

/-- Observable actions of a `preprocess` run: collaborator calls, the save
of topics/questions, and writing the completion marker (lock file). -/
inductive PAction where
  | collab
  | save
  | mark
deriving Repr, DecidableEq

/-- `TextPreprocessor.preprocess` (preprocessor.py lines 507-553): returns
the emitted action list and `some b` for a normal return of `b`, `none`
when an exception propagates (failed save).  Guards in source order: lock
file present (lines 517-519), input file missing (lines 521-524), empty
text (lines 529-531), empty topics (lines 538-540), empty questions (lines
542-545); then save (line 548) and lock-file creation (line 551). -/
def preprocessModel (lockExists fileExists : Bool) (text : String)
    (topics : List Topic) (questions : List PQuestion) (saveOk : Bool) :
    List PAction × Option Bool :=
  if lockExists then ([], some false)
  else if !fileExists then ([], some false)
  else if text = "" then ([], some false)
  else if topics.isEmpty then ([PAction.collab], some false)
  else if questions.isEmpty then ([PAction.collab], some false)
  else if saveOk then ([PAction.collab, PAction.save, PAction.mark], some true)
  else ([PAction.collab, PAction.save], none)

/-!
## Answer evaluation (`VoiceTrainer._evaluate_answer`, trainer.py 211-294)

The collaborator reply is an oracle `Option String` (`none` = the call
raised, lines 282-294).
-/

/-- The dictionary returned by `_evaluate_answer`. -/
structure EvalParts where
  feedback : String
  follow_up_questions : String
deriving Repr, DecidableEq

/-- The follow-up section headers searched for, in loop order
(trainer.py line 266). -/
def followUpHeaders : List String :=
  ["nachfragen:", "follow-up questions:", "follow up questions:"]

/-- The fixed consolation feedback returned when the collaborator call
fails (trainer.py lines 285-294), by language (`de = true` mirrors
`LANGUAGE == "de"`). -/
def consolationMsg (de : Bool) : String :=
  if de then
    "Ich konnte deine Antwort nicht richtig bewerten. Lass uns zur nächsten Frage übergehen."
  else
    "I couldn't properly evaluate your answer. Let's move to the next question."

/-- `VoiceTrainer._evaluate_answer`, reply-shaping behaviour (trainer.py
lines 251-294): on failure, a fixed consolation message with an empty
follow-up section; otherwise the first header (in list order) occurring in
the lowercased reply splits the LOWERCASED reply into feedback and
follow-up section (both stripped); with no header, the whole reply (original
casing) is the feedback and the follow-up section is empty. -/
def evaluateAnswer (de : Bool) (reply : Option String) : EvalParts :=
  match reply with
  | none => ⟨consolationMsg de, ""⟩
  | some full =>
    match followUpHeaders.find? fun h => pyContains (pyLower full) h with
    | some h =>
      let split := pySplitOnceA (pyLower full) h
      ⟨pyStrip split.1, pyStrip split.2⟩
    | none => ⟨full, ""⟩

/-!
## Follow-up parsing (`VoiceTrainer._handle_follow_up_questions`,
trainer.py 296-330)
-/

/-- The line test of the follow-up parser (trainer.py lines 314-315).
Python operator precedence makes the condition
`(line ∧ digit-head ∧ ". " in line[:5]) ∨ startswith "- " ∨ startswith "* "`. -/
def isFollowUpMarker (line : String) : Bool :=
  (line != "" && headIsDigit line && pyContains ⟨line.data.take 5⟩ ". ")
    || pyStartsWith line "- " || pyStartsWith line "* "

/-- The line loop of `_handle_follow_up_questions` (trainer.py lines
310-323): a marker line starts a new question (flushing the current one),
a non-empty line extends the current question with a space, other lines are
skipped. -/
def followUpGo : List String → String → List String → List String
  | [], cur, qs => if cur ≠ "" then qs ++ [cur] else qs
  | l :: ls, cur, qs =>
    let line := pyStrip l
    if isFollowUpMarker line then
      followUpGo ls line (if cur ≠ "" then qs ++ [cur] else qs)
    else if cur ≠ "" ∧ line ≠ "" then
      followUpGo ls (cur ++ " " ++ line) qs
    else
      followUpGo ls cur qs

/-- `VoiceTrainer._handle_follow_up_questions` (trainer.py lines 296-330):
parse at most 3 follow-up questions; with no recognized marker but
non-empty text, the whole stripped text is one question. -/
def handleFollowUpQuestions (text : String) : List String :=
  let qs := followUpGo (pySplitNl1 text) "" []
  let qs := if qs.isEmpty ∧ pyStrip text ≠ "" then [pyStrip text] else qs
  qs.take 3

/-!
## Interactive session (`VoiceTrainer.run_interactive_session`,
trainer.py 332-521)

The session is modelled as a pure interpreter producing a trace of events.
Randomness is externalized: `topics` is the already-shuffled topic order
(line 343), `randInt i` is the value of the i-th `random.randint(3, 4)`
call (line 462).  The collaborator-backed helpers are oracles: `intro`
stands for `_generate_topic_introduction` (a total function: that helper
returns a fallback on failure), `genQ` for `_generate_questions_for_topic`
(returning `[]` models its failure branch), `evalAns` for
`_evaluate_answer` (a total function, see `evaluateAnswer`).  User input is
a scripted list of strings; a `get_input` on an exhausted script returns
`""` (never reached by the witnesses).  `de = true` mirrors
`LANGUAGE == "de"`. -/

/-- A question as used by the trainer (trainer.py lines 196-200). -/
structure TQuestion where
  topic_title : String
  question : String
  answer_guide : String
deriving Repr, DecidableEq

/-- One observable event of a session: a displayed message
(`display_output`) or a blocking input request (`get_input`) together with
the user's reply. -/
inductive Event where
  | display (msg : String)
  | ask (msg reply : String)
deriving Repr, DecidableEq

/-- Consume one scripted input (`input_handler.get_input`). -/
def takeInput : List String → String × List String
  | [] => ("", [])
  | x :: xs => (x, xs)

/-- The exit-command set (trainer.py line 364). -/
def exitCommands : List String :=
  ["exit", "quit", "beenden", "ende", "stop", "schließen"]

/-- The exit test used at the blocking points (trainer.py lines 409, 447,
471): the lowercased input is a member of the exit-command set. -/
def isExitCmd (s : String) : Bool :=
  exitCommands.contains (pyLower s)

/-- The affirmative test at the after-topic continue decision (trainer.py
lines 500-501): some member of `["ja", "j", "yes", "y"]` occurs as a
SUBSTRING of the lowercased input. -/
def yesResponses : List String :=
  ["ja", "j", "yes", "y"]

/-- `any(resp in continue_session.lower() for resp in yes_responses)`
(trainer.py line 501). -/
def isAffirmative (s : String) : Bool :=
  yesResponses.any fun r => pyContains (pyLower s) r

/-- The advance test at the mid-follow-up continue decision (trainer.py
line 480). -/
def nextTopicKeywords : List String :=
  ["nächstes", "next", "ja", "yes", "y", "j"]

/-- `any(keyword in decision.lower() for keyword in next_topic_keywords)`
(trainer.py line 481). -/
def wantsNextTopic (s : String) : Bool :=
  nextTopicKeywords.any fun k => pyContains (pyLower s) k

/-- Goodbye message on exit or a non-affirmative continue decision
(trainer.py lines 410-413 and elsewhere, identical at every site). -/
def goodbyeMsg (de : Bool) : String :=
  if de then "\nVielen Dank für die Nutzung von VoicedTrainer. Auf Wiedersehen!"
  else "\nThank you for using VoicedTrainer. Goodbye!"

/-- Completion message after the last topic (trainer.py lines 510-519),
distinct from `goodbyeMsg`. -/
def completionMsg (de : Bool) : String :=
  if de then
    "\nHerzlichen Glückwunsch! Du hast alle Themen abgeschlossen. \nVielen Dank für die Nutzung von VoicedTrainer. Auf Wiedersehen!"
  else
    "\nCongratulations! You've completed all the topics. \nThank you for using VoicedTrainer. Goodbye!"

/-- Welcome message (trainer.py lines 346-359). -/
def welcomeMsg (de : Bool) : String :=
  if de then
    "Willkommen bei VoicedTrainer!\n\nIch werde dir Fragen zu verschiedenen Themen stellen. Versuche, so vollständig wie möglich zu antworten.\nGib 'beenden' ein, um die Sitzung jederzeit zu beenden."
  else
    "Welcome to VoicedTrainer!\n\nI'll ask you questions about various topics from the material. Try to answer as completely as you can.\nType 'exit' at any time to end the session."

/-- "No topics" terminal message (trainer.py line 339). -/
def noTopicsMsg : String :=
  "No topics found. Please ensure preprocessing has been completed."

/-- Topic header (trainer.py lines 372-375). -/
def topicHeader (de : Bool) (title : String) : String :=
  if de then "\n\nNeues Thema: " ++ title ++ "\n"
  else "\n\nNew Topic: " ++ title ++ "\n"

/-- Skip notice for a topic with no generated questions (trainer.py lines
382-385). -/
def skipMsg (de : Bool) (title : String) : String :=
  if de then "Konnte keine Fragen zum Thema '" ++ title ++ "' generieren. Überspringe."
  else "Could not generate questions for topic '" ++ title ++ "'. Skipping."

/-- Question header (trainer.py lines 398-401), 1-based. -/
def questionHeader (de : Bool) (n : Nat) : String :=
  if de then "\nFrage " ++ toString n ++ ": "
  else "\nQuestion " ++ toString n ++ ": "

/-- Feedback header (trainer.py lines 421-424, identical in both
languages). -/
def feedbackHeader : String := "\nFeedback: "

/-- Follow-up question header (trainer.py lines 436-439). -/
def followUpPfx (de : Bool) : String :=
  if de then "\nNachfrage: "
  else "\nFollow-up question: "

/-- Acknowledgement after a follow-up answer (trainer.py lines 456-459). -/
def thanksMsg (de : Bool) : String :=
  if de then "\nDanke für deine Antwort."
  else "\nThank you for your answer."

/-- Mid-follow-up continue prompt (trainer.py lines 463-466). -/
def midContinueMsg (de : Bool) : String :=
  if de then "\nMöchtest du zum nächsten Thema wechseln oder weiter über dieses Thema sprechen? (nächstes/weiter)"
  else "\nWould you like to move to the next topic or continue with this one? (next/continue)"

/-- After-topic continue prompt (trainer.py lines 493-496). -/
def contTopicMsg (de : Bool) : String :=
  if de then "\nMöchtest du mit dem nächsten Thema fortfahren? (ja/nein)"
  else "\nWould you like to continue to the next topic? (yes/no)"

/-- Outcome of the follow-up loop: early session exit, jump to the end of
the question batch (mid-follow-up "next topic" decision), or normal end of
the follow-up list. -/
inductive FuOut where
  | fin
  | jump
  | bye
deriving Repr, DecidableEq

/-- The follow-up loop (trainer.py lines 431-487).  Arguments: the parsed
follow-up list, the scripted inputs, `follow_up_counter`, and the
`randint` call index.  Returns the event trace, remaining inputs, the
updated counter and call index, and the outcome.  The counter is
incremented before each follow-up is displayed (line 433); after the
acknowledgement, `random.randint(3, 4)` is drawn (consuming one call
index) and when `follow_up_counter` has reached it the continue decision
runs: exit command ends the session, an advance keyword jumps past the
question batch, anything else resets the counter to 0 and resumes. -/
def runFollowUps (de : Bool) (randInt : Nat → Nat) :
    List String → List String → Nat → Nat →
    List Event × List String × Nat × Nat × FuOut
  | [], inputs, fuc, ridx => ([], inputs, fuc, ridx, .fin)
  | fu :: fus, inputs, fuc, ridx =>
    let fuc1 := fuc + 1
    let evFu := Event.display (followUpPfx de ++ fu)
    let (ans, inputs1) := takeInput inputs
    let evAns := Event.ask "Your answer:" ans
    if isExitCmd ans then
      ([evFu, evAns, .display (goodbyeMsg de)], inputs1, fuc1, ridx, .bye)
    else
      let evThanks := Event.display (thanksMsg de)
      if randInt ridx ≤ fuc1 then
        let (dec, inputs2) := takeInput inputs1
        let evDec := Event.ask (midContinueMsg de) dec
        if isExitCmd dec then
          ([evFu, evAns, evThanks, evDec, .display (goodbyeMsg de)],
            inputs2, fuc1, ridx + 1, .bye)
        else if wantsNextTopic dec then
          ([evFu, evAns, evThanks, evDec], inputs2, fuc1, ridx + 1, .jump)
        else
          let r := runFollowUps de randInt fus inputs2 0 (ridx + 1)
          ([evFu, evAns, evThanks, evDec] ++ r.1, r.2)
      else
        let r := runFollowUps de randInt fus inputs1 fuc1 (ridx + 1)
        ([evFu, evAns, evThanks] ++ r.1, r.2)

/-- Outcome of the question loop: early session exit, or fallthrough to the
after-topic continue decision (both normal exhaustion and the
mid-follow-up jump land there, trainer.py lines 483-492). -/
inductive QOut where
  | fin
  | bye
deriving Repr, DecidableEq

/-- The question loop of one topic (trainer.py lines 394-490).  `qnum` is
the 1-based display number of the next question; `fuc` is the per-topic
`follow_up_counter` (initialized to 0 at line 390 and threaded across the
topic's questions). -/
def runQuestions (de : Bool) (evalAns : TQuestion → String → EvalParts)
    (randInt : Nat → Nat) :
    List TQuestion → Nat → List String → Nat → Nat →
    List Event × List String × Nat × QOut
  | [], _, inputs, _, ridx => ([], inputs, ridx, .fin)
  | q :: qs, qnum, inputs, fuc, ridx =>
    let evQ := Event.display (questionHeader de qnum ++ q.question)
    let (ans, inputs1) := takeInput inputs
    let evA := Event.ask "Your answer:" ans
    if isExitCmd ans then
      ([evQ, evA, .display (goodbyeMsg de)], inputs1, ridx, .bye)
    else
      let ev := evalAns q ans
      let evF := Event.display (feedbackHeader ++ ev.feedback)
      let fus := handleFollowUpQuestions ev.follow_up_questions
      let (evsFu, inputs2, fuc2, ridx2, fo) := runFollowUps de randInt fus inputs1 fuc ridx
      match fo with
      | .bye => ([evQ, evA, evF] ++ evsFu, inputs2, ridx2, .bye)
      | .jump => ([evQ, evA, evF] ++ evsFu, inputs2, ridx2, .fin)
      | .fin =>
        let r := runQuestions de evalAns randInt qs (qnum + 1) inputs2 fuc2 ridx2
        ([evQ, evA, evF] ++ evsFu ++ r.1, r.2)

/-- Result of the topic loop: event trace, remaining scripted inputs,
`randint` call index, and whether the session ended by goodbye (`true`) or
by the completion message / end of topics (`false`). -/
structure SessRes where
  events : List Event
  inputs : List String
  ridx : Nat
  exited : Bool
deriving Repr, DecidableEq

/-- The after-topic continue decision (trainer.py lines 493-507), with the
result `next` of continuing the session on the remaining topics passed in:
an affirmative reply (substring test) proceeds with `next`; any other
reply displays the goodbye message and ends the session. -/
def afterTopicDecision (de : Bool) (reply : String) (inputs : List String)
    (ridx : Nat) (next : SessRes) : SessRes :=
  if isAffirmative reply then
    ⟨Event.ask (contTopicMsg de) reply :: next.events, next.inputs, next.ridx, next.exited⟩
  else
    ⟨[Event.ask (contTopicMsg de) reply, .display (goodbyeMsg de)], inputs, ridx, true⟩

/-- The topic loop (trainer.py lines 367-521): for each topic display the
header and introduction, generate its question batch (skipping the topic
when empty, lines 381-387), run the question loop, then the after-topic
continue decision; after the last topic the completion message is
displayed (lines 509-521). -/
def runTopics (de : Bool) (intro : Topic → String) (genQ : Topic → List TQuestion)
    (evalAns : TQuestion → String → EvalParts) (randInt : Nat → Nat) :
    List Topic → List String → Nat → SessRes
  | [], inputs, ridx => ⟨[.display (completionMsg de)], inputs, ridx, false⟩
  | t :: ts, inputs, ridx =>
    let evIntro := Event.display (topicHeader de t.title ++ intro t)
    let qs := genQ t
    if qs.isEmpty then
      let res := runTopics de intro genQ evalAns randInt ts inputs ridx
      ⟨evIntro :: .display (skipMsg de t.title) :: res.events, res.inputs, res.ridx, res.exited⟩
    else
      let (evsQ, inputs1, ridx1, qo) := runQuestions de evalAns randInt qs 1 inputs 0 ridx
      match qo with
      | .bye => ⟨evIntro :: evsQ, inputs1, ridx1, true⟩
      | .fin =>
        let (reply, inputs2) := takeInput inputs1
        let next := runTopics de intro genQ evalAns randInt ts inputs2 ridx1
        let res := afterTopicDecision de reply inputs2 ridx1 next
        ⟨evIntro :: (evsQ ++ res.events), res.inputs, res.ridx, res.exited⟩

/-- `VoiceTrainer.run_interactive_session` (trainer.py lines 332-521) as a
pure trace: the zero-topics precondition failure (lines 337-340), else the
welcome message followed by the topic loop on the shuffled topic order. -/
def runInteractiveSession (de : Bool) (intro : Topic → String)
    (genQ : Topic → List TQuestion) (evalAns : TQuestion → String → EvalParts)
    (randInt : Nat → Nat) (topics : List Topic) (inputs : List String) :
    List Event :=
  if topics.isEmpty then [.display noTopicsMsg]
  else .display (welcomeMsg de) :: (runTopics de intro genQ evalAns randInt topics inputs 0).events

/-- The exit-termination property of a trace: whenever an input request is
answered with an exit command, the rest of the trace is exactly the goodbye
message — no further question, follow-up or input request. -/
def exitCleanB (de : Bool) : List Event → Bool
  | [] => true
  | .display _ :: rest => exitCleanB de rest
  | .ask _ r :: rest =>
    if isExitCmd r then decide (rest = [Event.display (goodbyeMsg de)])
    else exitCleanB de rest

/-- No input request in the trace is answered with an exit command. -/
def noExitReplyB : List Event → Bool
  | [] => true
  | .display _ :: rest => noExitReplyB rest
  | .ask _ r :: rest => !isExitCmd r && noExitReplyB rest

/-!
## Claim C1 — topic extraction count and title uniqueness
-/

/-- Claim C1, counterexample: a consolidation reply whose parsed candidate
titles repeat (here `"1. A\n2. A"`, target count 2) makes
`_extract_topics_from_chunks` return two topics with EQUAL titles: the
code never deduplicates, so the claim that all returned titles are
pairwise distinct is false. -/
theorem extract_topics_duplicate_titles_cex :
    (extractTopicsFromReply (some "1. A\n2. A") 2).length = 2 ∧
    ¬ ((extractTopicsFromReply (some "1. A\n2. A") 2).map Topic.title).Nodup := by
  decide

/-- Claim C1, amended: for every consolidation reply (or failure) and every
target count `n ≥ 1`, `_extract_topics_from_chunks` returns exactly `n`
topics (truncating extras, padding with synthesized `"Topic k"` titles,
falling back to `n` placeholders on failure); the titles are NOT
guaranteed pairwise distinct. -/
theorem extract_topics_exact_count (reply : Option String) (n : Nat) (_h : 1 ≤ n) :
    (extractTopicsFromReply reply n).length = n := by
  cases reply with
  | none => simp [extractTopicsFromReply]
  | some txt =>
    simp only [extractTopicsFromReply, padTopics, List.length_append, List.length_map,
      List.length_range, List.length_take]
    omega

/-- Witness for `extract_topics_exact_count` at a concrete reply and
`n = 3`. -/
theorem extract_topics_exact_count_witness :
    (extractTopicsFromReply (some "no parseable lines here") 3).length = 3 :=
  extract_topics_exact_count (some "no parseable lines here") 3 (by decide)

/-!
## Claim C2 — per-topic question quotas
-/

/-- With a non-positive remainder every topic gets exactly `perTopic`
questions. -/
theorem quotasGo_nonpos (p : Nat) : ∀ (t : Nat) (rem : Int), rem ≤ 0 →
    quotasGo p t rem = List.replicate t p := by
  intro t
  induction t with
  | zero => intro rem _; rfl
  | succ t ih =>
    intro rem hrem
    simp only [quotasGo, if_neg (by omega : ¬ 0 < rem)]
    rw [ih rem hrem, List.replicate_succ]

/-- Sum of the quota list for a non-negative remainder. -/
theorem quotasGo_sum (p : Nat) : ∀ (t : Nat) (rem : Int), 0 ≤ rem →
    (quotasGo p t rem).sum = t * p + min rem.toNat t := by
  intro t
  induction t with
  | zero => intro rem _; simp [quotasGo]
  | succ t ih =>
    intro rem hrem
    by_cases hpos : 0 < rem
    · simp only [quotasGo, if_pos hpos, List.sum_cons]
      rw [ih (rem - 1) (by omega)]
      have h2 : (rem - 1).toNat = rem.toNat - 1 := by omega
      have h3 : (t + 1) * p = t * p + p := by ring
      rw [h2, h3]
      omega
    · simp only [quotasGo, if_neg hpos, List.sum_cons]
      rw [ih rem hrem]
      have h3 : (t + 1) * p = t * p + p := by ring
      rw [h3]
      omega

/-- Every quota is `perTopic` or `perTopic + 1`. -/
theorem quotasGo_mem (p : Nat) : ∀ (t : Nat) (rem : Int) (x : Nat),
    x ∈ quotasGo p t rem → x = p ∨ x = p + 1 := by
  intro t
  induction t with
  | zero => intro rem x hx; simp [quotasGo] at hx
  | succ t ih =>
    intro rem x hx
    by_cases hpos : 0 < rem
    · rw [quotasGo, if_pos hpos] at hx
      rcases List.mem_cons.mp hx with h | h
      · right; exact h
      · exact ih _ _ h
    · rw [quotasGo, if_neg hpos] at hx
      rcases List.mem_cons.mp hx with h | h
      · left; exact h
      · exact ih _ _ h

/-- Claim C2, counterexample: with 3 topics and 2 questions the source
computes `per_topic = max(1, 2 // 3) = 1` and a negative remainder, so the
quotas are `[1, 1, 1]`, summing to 3 and not to the requested 2. -/
theorem question_quotas_sum_cex :
    questionQuotas 3 2 = [1, 1, 1] ∧ ¬ (questionQuotas 3 2).sum = 2 := by
  decide

/-- Claim C2, amended: for `T ≥ 1` topics and `Q` questions the quotas sum
to exactly `Q` whenever `Q ≥ T`; when `Q < T` the `max(1, ...)` floor makes
every quota 1 so the sum is `T` (exceeding `Q`); in all cases any two
quotas differ by at most 1. -/
theorem question_quotas_amended (T Q : Nat) (hT : 1 ≤ T) :
    (T ≤ Q → (questionQuotas T Q).sum = Q)
    ∧ (Q < T → questionQuotas T Q = List.replicate T 1)
    ∧ (∀ a ∈ questionQuotas T Q, ∀ b ∈ questionQuotas T Q, a ≤ b + 1) := by
  refine ⟨?_, ?_, ?_⟩
  · intro hTQ
    have hdiv : 1 ≤ Q / T := (Nat.one_le_div_iff (by omega)).mpr hTQ
    have hmax : max 1 (Q / T) = Q / T := max_eq_right hdiv
    have hmod : T * (Q / T) + Q % T = Q := Nat.div_add_mod Q T
    have hrem : (Q : Int) - ((Q / T : Nat) : Int) * ((T : Nat) : Int) = ((Q % T : Nat) : Int) := by
      have h := congrArg (fun n : Nat => (n : Int)) hmod
      simp only [Nat.cast_add, Nat.cast_mul] at h
      linarith
    simp only [questionQuotas]
    rw [hmax, hrem, quotasGo_sum _ _ _ (Int.natCast_nonneg _)]
    have hlt : Q % T < T := Nat.mod_lt Q (by omega)
    rw [Int.toNat_natCast, min_eq_left (le_of_lt hlt)]
    exact hmod
  · intro hQT
    have hdiv : Q / T = 0 := Nat.div_eq_of_lt hQT
    simp only [questionQuotas, hdiv]
    have hm : max 1 0 = 1 := rfl
    rw [hm]
    exact quotasGo_nonpos 1 T _ (by push_cast; omega)
  · intro a ha b hb
    simp only [questionQuotas] at ha hb
    rcases quotasGo_mem _ _ _ _ ha with h | h <;>
      rcases quotasGo_mem _ _ _ _ hb with h2 | h2 <;> omega

/-- Witness for `question_quotas_amended`: with 2 topics and 5 questions
the quotas sum to 5. -/
theorem question_quotas_amended_witness : (questionQuotas 2 5).sum = 5 :=
  (question_quotas_amended 2 5 (by decide)).1 (by decide)

/-!
## Claims C5 and C6 — chunker guarantees

Helper lemmas about `pyStrip` and the chunk loop.
-/

/-- `strip` never lengthens a character list. -/
theorem stripCh_length_le (l : List Char) : (stripCh l).length ≤ l.length := by
  unfold stripCh
  rw [List.length_reverse]
  calc ((l.dropWhile Char.isWhitespace).reverse.dropWhile Char.isWhitespace).length
      ≤ (l.dropWhile Char.isWhitespace).reverse.length :=
        (List.dropWhile_sublist _).length_le
    _ = (l.dropWhile Char.isWhitespace).length := List.length_reverse _
    _ ≤ l.length := (List.dropWhile_sublist _).length_le

/-- `strip` never lengthens a string. -/
theorem pyStrip_length_le (s : String) : (pyStrip s).length ≤ s.length :=
  stripCh_length_le s.data

/-- An element that fails the predicate survives `dropWhile`. -/
theorem mem_dropWhile_self {p : Char → Bool} {x : Char} :
    ∀ {l : List Char}, x ∈ l → ¬ p x = true → x ∈ l.dropWhile p := by
  intro l
  induction l with
  | nil => intro hx; cases hx
  | cons a t ih =>
    intro hx hpx
    rw [List.dropWhile_cons]
    split_ifs with ha
    · rcases List.mem_cons.mp hx with rfl | h
      · exact absurd ha hpx
      · exact ih h hpx
    · exact hx

/-- A character list containing a non-whitespace character does not strip
to the empty list. -/
theorem stripCh_ne_nil (l : List Char) (h : ∃ c ∈ l, ¬ c.isWhitespace = true) :
    stripCh l ≠ [] := by
  rcases h with ⟨c, hc, hcw⟩
  unfold stripCh
  intro hcontra
  rw [List.reverse_eq_nil_iff] at hcontra
  have h1 : c ∈ l.dropWhile Char.isWhitespace := mem_dropWhile_self hc hcw
  have h2 : c ∈ (l.dropWhile Char.isWhitespace).reverse := List.mem_reverse.mpr h1
  have h3 := mem_dropWhile_self h2 hcw
  rw [hcontra] at h3
  cases h3

/-- A string containing a non-whitespace character does not strip to `""`. -/
theorem pyStrip_ne_empty (s : String) (h : ∃ c ∈ s.data, ¬ c.isWhitespace = true) :
    pyStrip s ≠ "" := by
  intro hcontra
  exact stripCh_ne_nil s.data h (congrArg String.data hcontra)

/-- `String.append` on the character-list level. -/
theorem string_data_append (a b : String) : (a ++ b).data = a.data ++ b.data :=
  rfl

/-- Sizes out of the chunk loop: every produced chunk is either the strip
of a single paragraph satisfying `P` (such a chunk can be oversized) or has
length at most `chunkSize + 2` — the `+ 2` being the `"\n\n"` separator
that the size check of the source does not count. -/
theorem chunkGo_size (K : Nat) (P : String → Prop) :
    ∀ (paras : List String) (cur : String) (chunks : List String),
      (∀ p ∈ paras, P p) →
      (cur = "" ∨ (∃ p, P p ∧ cur = p) ∨ cur.length ≤ K + 2) →
      (∀ c ∈ chunks, (∃ p, P p ∧ c = pyStrip p) ∨ c.length ≤ K + 2) →
      ∀ c ∈ chunkGo K paras cur chunks,
        (∃ p, P p ∧ c = pyStrip p) ∨ c.length ≤ K + 2 := by
  intro paras
  induction paras with
  | nil =>
    intro cur chunks _ hcur hchunks c hc
    simp only [chunkGo] at hc
    split_ifs at hc with h
    · rcases List.mem_append.mp hc with h1 | h1
      · exact hchunks c h1
      · simp only [List.mem_singleton] at h1
        subst h1
        rcases hcur with rfl | ⟨q, hq, hq2⟩ | hlen
        · exact absurd rfl h
        · exact Or.inl ⟨q, hq, by rw [hq2]⟩
        · exact Or.inr (le_trans (pyStrip_length_le _) hlen)
    · exact hchunks c hc
  | cons p ps ih =>
    intro cur chunks hpar hcur hchunks c hc
    simp only [chunkGo] at hc
    split_ifs at hc with h1 h2
    · -- flush the buffer, restart from the single paragraph `p`
      refine ih p (chunks ++ [pyStrip cur])
        (fun q hq => hpar q (List.mem_cons_of_mem _ hq))
        (Or.inr (Or.inl ⟨p, hpar p (List.mem_cons_self _ _), rfl⟩)) ?_ c hc
      intro c2 hc2
      rcases List.mem_append.mp hc2 with h3 | h3
      · exact hchunks c2 h3
      · simp only [List.mem_singleton] at h3
        subst h3
        rcases hcur with rfl | ⟨q, hq, hq2⟩ | hlen
        · exact absurd rfl h1.2
        · exact Or.inl ⟨q, hq, by rw [hq2]⟩
        · exact Or.inr (le_trans (pyStrip_length_le _) hlen)
    · -- append the paragraph: the pre-check bounds the new buffer by K + 2
      refine ih (cur ++ "\n\n" ++ p) chunks
        (fun q hq => hpar q (List.mem_cons_of_mem _ hq)) ?_ hchunks c hc
      right; right
      have hsep : ("\n\n" : String).length = 2 := rfl
      have hlen2 : (cur ++ "\n\n" ++ p).length = cur.length + 2 + p.length := by
        rw [String.length_append, String.length_append, hsep]
      have hle : cur.length + p.length ≤ K := by
        by_cases hK : K < cur.length + p.length
        · exact absurd ⟨hK, h2⟩ h1
        · omega
      omega
    · -- empty buffer: start it with the single paragraph `p`
      exact ih p chunks (fun q hq => hpar q (List.mem_cons_of_mem _ hq))
        (Or.inr (Or.inl ⟨p, hpar p (List.mem_cons_self _ _), rfl⟩)) hchunks c hc

/-- Non-emptiness out of the chunk loop, provided every paragraph carries a
non-whitespace character. -/
theorem chunkGo_nonempty (K : Nat) :
    ∀ (paras : List String) (cur : String) (chunks : List String),
      (∀ p ∈ paras, ∃ ch ∈ p.data, ¬ ch.isWhitespace = true) →
      (cur = "" ∨ ∃ ch ∈ cur.data, ¬ ch.isWhitespace = true) →
      (∀ c ∈ chunks, c ≠ "") →
      ∀ c ∈ chunkGo K paras cur chunks, c ≠ "" := by
  intro paras
  induction paras with
  | nil =>
    intro cur chunks _ hcur hchunks c hc
    simp only [chunkGo] at hc
    split_ifs at hc with h
    · rcases List.mem_append.mp hc with h1 | h1
      · exact hchunks c h1
      · simp only [List.mem_singleton] at h1
        subst h1
        rcases hcur with rfl | hex
        · exact absurd rfl h
        · exact pyStrip_ne_empty _ hex
    · exact hchunks c hc
  | cons p ps ih =>
    intro cur chunks hpar hcur hchunks c hc
    simp only [chunkGo] at hc
    split_ifs at hc with h1 h2
    · refine ih p (chunks ++ [pyStrip cur])
        (fun q hq => hpar q (List.mem_cons_of_mem _ hq))
        (Or.inr (hpar p (List.mem_cons_self _ _))) ?_ c hc
      intro c2 hc2
      rcases List.mem_append.mp hc2 with h3 | h3
      · exact hchunks c2 h3
      · simp only [List.mem_singleton] at h3
        subst h3
        rcases hcur with rfl | hex
        · exact absurd rfl h1.2
        · exact pyStrip_ne_empty _ hex
    · refine ih (cur ++ "\n\n" ++ p) chunks
        (fun q hq => hpar q (List.mem_cons_of_mem _ hq)) ?_ hchunks c hc
      right
      rcases hpar p (List.mem_cons_self _ _) with ⟨ch, hch, hchw⟩
      refine ⟨ch, ?_, hchw⟩
      rw [string_data_append, string_data_append]
      exact List.mem_append.mpr (Or.inr hch)
    · exact ih p chunks (fun q hq => hpar q (List.mem_cons_of_mem _ hq))
        (Or.inr (hpar p (List.mem_cons_self _ _))) hchunks c hc

/-- Claim C5, counterexample: with `max_size = 10` and input
`"aaaa\n\nbbbbb"` (two paragraphs of lengths 4 and 5) the produced chunk is
the whole string of length 11 — it exceeds `max_size` without being a
single oversized paragraph, because the size check
`len(current_chunk) + len(paragraph) > chunk_size` does not count the
2-character `"\n\n"` separator that joining inserts. -/
theorem chunker_size_cex :
    ¬ (∀ c ∈ splitTextIntoChunks "aaaa\n\nbbbbb" 10,
        c ≠ "" ∧ (c.length ≤ 10 ∨
          ∃ p ∈ pySplitNl2 "aaaa\n\nbbbbb", c = pyStrip p ∧ 10 < p.length)) := by
  decide

/-- Claim C5, amended: every chunk is either the strip of a single input
paragraph (and may then be oversized) or has length at most
`max_size + 2` (the size check does not count the joining `"\n\n"`
separator); and chunks are non-empty provided every input paragraph
contains a non-whitespace character (a whitespace-only buffer strips to
the empty chunk, as on input `" "`). -/
theorem chunker_amended (text : String) (K : Nat) :
    (∀ c ∈ splitTextIntoChunks text K,
        (∃ p ∈ pySplitNl2 text, c = pyStrip p) ∨ c.length ≤ K + 2)
    ∧ ((∀ p ∈ pySplitNl2 text, ∃ ch ∈ p.data, ¬ ch.isWhitespace = true) →
        ∀ c ∈ splitTextIntoChunks text K, c ≠ "") := by
  constructor
  · intro c hc
    simp only [splitTextIntoChunks] at hc
    have h := chunkGo_size K (fun p => p ∈ pySplitNl2 text) (pySplitNl2 text) "" []
      (fun _ hp => hp) (Or.inl rfl) (fun c2 hc2 => absurd hc2 (List.not_mem_nil c2)) c hc
    rcases h with ⟨p, hp, heq⟩ | h
    · exact Or.inl ⟨p, hp, heq⟩
    · exact Or.inr h
  · intro hpar c hc
    simp only [splitTextIntoChunks] at hc
    exact chunkGo_nonempty K (pySplitNl2 text) "" [] hpar (Or.inl rfl)
      (fun c2 hc2 => absurd hc2 (List.not_mem_nil c2)) c hc

/-- Witness for `chunker_amended`: the whitespace-free input `"ab"` has no
empty chunk. -/
theorem chunker_amended_witness : ¬ ("" ∈ splitTextIntoChunks "ab" 10) :=
  fun h => (chunker_amended "ab" 10).2 (by decide) "" h rfl

/-- `splitNl2Ch` always produces at least one part. -/
theorem splitNl2Ch_ne_nil : ∀ (l acc : List Char), splitNl2Ch l acc ≠ [] := by
  intro l acc
  induction l, acc using splitNl2Ch.induct with
  | case1 acc => simp [splitNl2Ch]
  | case2 c acc => simp [splitNl2Ch]
  | case3 c d rest acc hcd ih => simp [splitNl2Ch, hcd]
  | case4 c d rest acc hcd ih =>
    simp only [splitNl2Ch, if_neg hcd]
    exact ih

/-- The separator occurs in `l ++ [c]` iff it occurs in `l` or is created
at the junction. -/
theorem hasNl2_snoc (c : Char) : ∀ (l : List Char),
    hasNl2 (l ++ [c]) = true ↔
      hasNl2 l = true ∨ (l.getLast? = some '\n' ∧ c = '\n') := by
  intro l
  induction l with
  | nil => simp [hasNl2]
  | cons a l ih =>
    cases l with
    | nil => simp [hasNl2, List.getLast?_singleton]
    | cons b l2 =>
      have hstep : (a :: b :: l2) ++ [c] = a :: ((b :: l2) ++ [c]) := rfl
      rw [hstep]
      have e1 : hasNl2 (a :: ((b :: l2) ++ [c])) =
          ((a = '\n' && b = '\n') || hasNl2 ((b :: l2) ++ [c])) := rfl
      have e2 : hasNl2 (a :: b :: l2) = ((a = '\n' && b = '\n') || hasNl2 (b :: l2)) := rfl
      rw [e1, e2, List.getLast?_cons_cons]
      simp only [Bool.or_eq_true, Bool.and_eq_true, decide_eq_true_eq]
      rw [ih]
      tauto

/-- A part without the separator passes through `splitNl2Ch` unsplit. -/
theorem splitNl2Ch_no_sep : ∀ (p acc : List Char), hasNl2 p = false →
    splitNl2Ch p acc = [acc ++ p] := by
  intro p acc
  induction p, acc using splitNl2Ch.induct with
  | case1 acc => intro _; simp [splitNl2Ch]
  | case2 c acc => intro _; simp [splitNl2Ch]
  | case3 c d rest acc hcd ih =>
    intro hno
    exfalso
    have e : hasNl2 (c :: d :: rest) = ((c = '\n' && d = '\n') || hasNl2 (d :: rest)) := rfl
    rw [e] at hno
    simp [hcd.1, hcd.2] at hno
  | case4 c d rest acc hcd ih =>
    intro hno
    have e : hasNl2 (c :: d :: rest) = ((c = '\n' && d = '\n') || hasNl2 (d :: rest)) := rfl
    rw [e] at hno
    have hno2 : hasNl2 (d :: rest) = false := (Bool.or_eq_false_iff.mp hno).2
    rw [splitNl2Ch, if_neg hcd, ih hno2]
    simp

/-- Splitting `p ++ "\n\n" ++ l` detaches `p` as the first part when `p` is
separator-free and does not end with a newline. -/
theorem splitNl2Ch_chunk : ∀ (p : List Char), hasNl2 p = false →
    p.getLast? ≠ some '\n' →
    ∀ (acc l : List Char),
      splitNl2Ch (p ++ '\n' :: '\n' :: l) acc = (acc ++ p) :: splitNl2Ch l [] := by
  intro p
  induction p with
  | nil =>
    intro _ _ acc l
    rw [List.nil_append, splitNl2Ch, if_pos ⟨rfl, rfl⟩, List.append_nil]
  | cons c p ih =>
    intro hno hlast acc l
    cases p with
    | nil =>
      have hc : ¬ (c = '\n' ∧ '\n' = '\n') := by
        intro hcc
        exact hlast (by rw [hcc.1]; rfl)
      have hstep : (c :: []) ++ '\n' :: '\n' :: l = c :: '\n' :: '\n' :: l := rfl
      rw [hstep, splitNl2Ch, if_neg hc, splitNl2Ch, if_pos ⟨rfl, rfl⟩]
    | cons d p2 =>
      have hcd : ¬ (c = '\n' ∧ d = '\n') := by
        intro hcc
        have e : hasNl2 (c :: d :: p2) = ((c = '\n' && d = '\n') || hasNl2 (d :: p2)) := rfl
        rw [e] at hno
        simp [hcc.1, hcc.2] at hno
      have hno2 : hasNl2 (d :: p2) = false := by
        have e : hasNl2 (c :: d :: p2) = ((c = '\n' && d = '\n') || hasNl2 (d :: p2)) := rfl
        rw [e] at hno
        exact (Bool.or_eq_false_iff.mp hno).2
      have hlast2 : (d :: p2).getLast? ≠ some '\n' := by
        rwa [List.getLast?_cons_cons] at hlast
      have hstep : (c :: d :: p2) ++ '\n' :: '\n' :: l =
          c :: d :: (p2 ++ '\n' :: '\n' :: l) := rfl
      rw [hstep, splitNl2Ch, if_neg hcd]
      have hstep2 : d :: (p2 ++ '\n' :: '\n' :: l) = (d :: p2) ++ '\n' :: '\n' :: l := rfl
      rw [hstep2, ih hno2 hlast2]
      simp

/-- Re-splitting the join of separator-free, newline-terminator-free parts
recovers the parts. -/
theorem splitNl2Ch_join : ∀ (parts : List (List Char)), parts ≠ [] →
    (∀ p ∈ parts, hasNl2 p = false ∧ p.getLast? ≠ some '\n') →
    splitNl2Ch (joinNl2Ch parts) [] = parts := by
  intro parts
  induction parts with
  | nil => intro hne _; exact absurd rfl hne
  | cons p parts ih =>
    intro _ hp
    cases parts with
    | nil =>
      have e : joinNl2Ch [p] = p := rfl
      rw [e, splitNl2Ch_no_sep p [] (hp p (List.mem_cons_self _ _)).1, List.nil_append]
    | cons q parts2 =>
      have e : joinNl2Ch (p :: q :: parts2) = p ++ '\n' :: '\n' :: joinNl2Ch (q :: parts2) := rfl
      rw [e, splitNl2Ch_chunk p (hp p (List.mem_cons_self _ _)).1
        (hp p (List.mem_cons_self _ _)).2]
      rw [ih (by simp) (fun r hr => hp r (List.mem_cons_of_mem _ hr))]
      rfl

/-- Every part produced by `splitNl2Ch` is separator-free. -/
theorem splitNl2Ch_parts_no_sep : ∀ (l acc : List Char),
    hasNl2 acc = false → (acc.getLast? = some '\n' → l.head? ≠ some '\n') →
    ∀ part ∈ splitNl2Ch l acc, hasNl2 part = false := by
  intro l acc
  induction l, acc using splitNl2Ch.induct with
  | case1 acc =>
    intro hacc _ part hpart
    simp only [splitNl2Ch, List.mem_singleton] at hpart
    subst hpart
    exact hacc
  | case2 c acc =>
    intro hacc hedge part hpart
    simp only [splitNl2Ch, List.mem_singleton] at hpart
    subst hpart
    rw [← Bool.not_eq_true, hasNl2_snoc]
    push_neg
    refine ⟨by simp [hacc], fun hlast hcn => ?_⟩
    have h2 := hedge hlast
    simp only [List.head?_cons, Ne, Option.some_inj] at h2
    exact h2 hcn
  | case3 c d rest acc hcd ih =>
    intro hacc _ part hpart
    simp only [splitNl2Ch, if_pos hcd] at hpart
    rcases List.mem_cons.mp hpart with rfl | hmem
    · exact hacc
    · exact ih rfl (by simp) part hmem
  | case4 c d rest acc hcd ih =>
    intro hacc hedge part hpart
    simp only [splitNl2Ch, if_neg hcd] at hpart
    refine ih ?_ ?_ part hpart
    · rw [← Bool.not_eq_true, hasNl2_snoc]
      push_neg
      refine ⟨by simp [hacc], fun hlast hcn => ?_⟩
      have h2 := hedge hlast
      simp only [List.head?_cons, Ne, Option.some_inj] at h2
      exact h2 hcn
    · rw [List.getLast?_concat]
      intro hc
      have hc2 : c = '\n' := by injection hc
      simp only [List.head?_cons, Ne, Option.some_inj]
      intro hd
      exact hcd ⟨hc2, hd⟩

/-- A non-empty edge-clean string does not start with whitespace, so not
with a newline; in particular it is non-empty. -/
theorem noEdgeWSB_ne_empty (s : String) (h : noEdgeWSB s = true) : s ≠ "" := by
  intro hc
  subst hc
  simp [noEdgeWSB, headOKB] at h

/-- An edge-clean string does not end with a newline. -/
theorem noEdgeWSB_getLast (s : String) (h : noEdgeWSB s = true) :
    s.data.getLast? ≠ some '\n' := by
  have h2 := (Bool.and_eq_true_iff.mp h).2
  intro hc
  have hrev : s.data.reverse.head? = some '\n' := by
    rw [List.head?_reverse]
    exact hc
  cases he : s.data.reverse with
  | nil => rw [he] at hrev; cases hrev
  | cons a t =>
    rw [he] at hrev h2
    simp only [List.head?_cons, Option.some_inj] at hrev
    subst hrev
    simp [headOKB] at h2

/-- `dropWhile` is the identity on a list whose head is not whitespace. -/
theorem dropWhile_of_headOK {l : List Char} (h : headOKB l = true) :
    l.dropWhile Char.isWhitespace = l := by
  cases l with
  | nil => rfl
  | cons a t =>
    simp only [headOKB, Bool.not_eq_true'] at h
    rw [List.dropWhile_cons, if_neg (by simp [h])]

/-- `strip` is the identity on an edge-clean string. -/
theorem pyStrip_of_noEdge (s : String) (h : noEdgeWSB s = true) : pyStrip s = s := by
  obtain ⟨h1, h2⟩ := Bool.and_eq_true_iff.mp h
  show (⟨stripCh s.data⟩ : String) = s
  have e : stripCh s.data = s.data := by
    unfold stripCh
    rw [dropWhile_of_headOK h1, dropWhile_of_headOK h2, List.reverse_reverse]
  rw [e]

/-- Appending on the right preserves a good head. -/
theorem headOKB_append {l m : List Char} (h : headOKB l = true) :
    headOKB (l ++ m) = true := by
  cases l with
  | nil => simp [headOKB] at h
  | cons a t => simpa [headOKB] using h

/-- Joining two edge-clean strings with the paragraph separator is
edge-clean. -/
theorem noEdgeWSB_join (a b : String) (ha : noEdgeWSB a = true)
    (hb : noEdgeWSB b = true) : noEdgeWSB (a ++ "\n\n" ++ b) = true := by
  obtain ⟨ha1, _⟩ := Bool.and_eq_true_iff.mp ha
  obtain ⟨_, hb2⟩ := Bool.and_eq_true_iff.mp hb
  apply Bool.and_eq_true_iff.mpr
  constructor
  · rw [string_data_append, string_data_append, List.append_assoc]
    exact headOKB_append ha1
  · rw [string_data_append, string_data_append, List.reverse_append]
    exact headOKB_append hb2

/-- Unfold `joinNl2Ch` over a cons with a non-empty tail. -/
theorem joinNl2Ch_cons (a : List Char) {L : List (List Char)} (h : L ≠ []) :
    joinNl2Ch (a :: L) = a ++ '\n' :: '\n' :: joinNl2Ch L := by
  cases L with
  | nil => exact absurd rfl h
  | cons b t => rfl

/-- Merging a part that is itself a separator-join of two pieces does not
change the overall join. -/
theorem joinNl2Ch_merge : ∀ (A : List (List Char)) (x y : List Char)
    (B : List (List Char)),
    joinNl2Ch (A ++ (x ++ '\n' :: '\n' :: y) :: B) = joinNl2Ch (A ++ x :: y :: B) := by
  intro A
  induction A with
  | nil =>
    intro x y B
    cases B with
    | nil => rfl
    | cons b t =>
      show (x ++ '\n' :: '\n' :: y) ++ '\n' :: '\n' :: joinNl2Ch (b :: t) =
        x ++ '\n' :: '\n' :: (y ++ '\n' :: '\n' :: joinNl2Ch (b :: t))
      simp [List.append_assoc]
  | cons a A ih =>
    intro x y B
    rw [List.cons_append, List.cons_append, joinNl2Ch_cons a (by simp),
      joinNl2Ch_cons a (by simp), ih]

/-- `joinStrNl2` agrees with the character-level join. -/
theorem joinStrNl2_data : ∀ (l : List String),
    (joinStrNl2 l).data = joinNl2Ch (l.map String.data) := by
  intro l
  induction l with
  | nil => rfl
  | cons s ss ih =>
    cases ss with
    | nil => rfl
    | cons t tt =>
      show (s ++ "\n\n" ++ joinStrNl2 (t :: tt)).data = _
      rw [string_data_append, string_data_append, ih,
        show List.map String.data (s :: t :: tt) =
          s.data :: List.map String.data (t :: tt) from rfl,
        joinNl2Ch_cons s.data (by simp)]
      simp [List.append_assoc]

/-- Skipping the initial empty buffer of the chunk loop. -/
theorem chunkGo_start (K : Nat) (p : String) (ps chunks : List String) :
    chunkGo K (p :: ps) "" chunks = chunkGo K ps p chunks := by
  simp [chunkGo]

/-- The chunk loop preserves the separator-join of all text, provided the
buffer and every pending paragraph are edge-clean (so that the `strip` at
each flush is the identity). -/
theorem chunkGo_join (K : Nat) :
    ∀ (paras : List String) (cur : String) (chunks : List String),
      (∀ p ∈ paras, noEdgeWSB p = true) → noEdgeWSB cur = true →
      joinNl2Ch ((chunkGo K paras cur chunks).map String.data) =
        joinNl2Ch ((chunks ++ cur :: paras).map String.data) := by
  intro paras
  induction paras with
  | nil =>
    intro cur chunks _ hcur
    simp only [chunkGo]
    rw [if_pos (noEdgeWSB_ne_empty cur hcur), pyStrip_of_noEdge cur hcur]
  | cons p ps ih =>
    intro cur chunks hpar hcur
    simp only [chunkGo]
    split_ifs with h1 h2
    · rw [pyStrip_of_noEdge cur hcur,
        ih p (chunks ++ [cur]) (fun q hq => hpar q (List.mem_cons_of_mem _ hq))
          (hpar p (List.mem_cons_self _ _))]
      have e : (chunks ++ [cur]) ++ p :: ps = chunks ++ cur :: p :: ps := by simp
      rw [e]
    · rw [ih (cur ++ "\n\n" ++ p) chunks (fun q hq => hpar q (List.mem_cons_of_mem _ hq))
        (noEdgeWSB_join cur p hcur (hpar p (List.mem_cons_self _ _)))]
      have hdata : (cur ++ "\n\n" ++ p).data = cur.data ++ '\n' :: '\n' :: p.data := by
        rw [string_data_append, string_data_append]
        simp
      rw [List.map_append, List.map_cons, hdata, List.map_append, List.map_cons,
        List.map_cons]
      exact joinNl2Ch_merge (chunks.map String.data) cur.data p.data (ps.map String.data)
    · exact absurd (noEdgeWSB_ne_empty cur hcur) h2

/-- Claim C6, counterexample: on input `" a"` (one paragraph with a leading
space) the single chunk is stripped to `"a"`, so re-splitting the joined
chunks yields `["a"]` while the input's paragraphs are `[" a"]` — the
round-trip does not reproduce the paragraph contents. -/
theorem chunker_roundtrip_cex :
    pySplitNl2 (joinStrNl2 (splitTextIntoChunks " a" 3000)) ≠ pySplitNl2 " a" := by
  decide

/-- Claim C6, amended: the round-trip (re-splitting the `"\n\n"`-join of
the produced chunks) reproduces the input's paragraph sequence provided
every input paragraph is non-empty and carries no leading or trailing
whitespace; otherwise the `strip` applied at chunk boundaries can alter
paragraph contents (see the counterexample). -/
theorem chunker_roundtrip_amended (text : String) (K : Nat)
    (h : ∀ p ∈ pySplitNl2 text, noEdgeWSB p = true) :
    pySplitNl2 (joinStrNl2 (splitTextIntoChunks text K)) = pySplitNl2 text := by
  have hparts : ∀ pc ∈ splitNl2Ch text.data [], noEdgeWSB (String.mk pc) = true := by
    intro pc hpc
    exact h (String.mk pc) (List.mem_map.mpr ⟨pc, hpc, rfl⟩)
  have hno : ∀ pc ∈ splitNl2Ch text.data [], hasNl2 pc = false :=
    splitNl2Ch_parts_no_sep text.data [] rfl (by simp)
  cases hsd : splitNl2Ch text.data [] with
  | nil => exact absurd hsd (splitNl2Ch_ne_nil _ _)
  | cons p0 psc =>
    have hstart : splitTextIntoChunks text K =
        chunkGo K (psc.map String.mk) (String.mk p0) [] := by
      rw [splitTextIntoChunks, pySplitNl2, hsd, List.map_cons, chunkGo_start]
    have hp0 : noEdgeWSB (String.mk p0) = true := by
      apply hparts
      rw [hsd]
      exact List.mem_cons_self _ _
    have hps : ∀ q ∈ psc.map String.mk, noEdgeWSB q = true := by
      intro q hq
      rcases List.mem_map.mp hq with ⟨pc, hpc, rfl⟩
      apply hparts
      rw [hsd]
      exact List.mem_cons_of_mem _ hpc
    have hjoin : joinNl2Ch ((splitTextIntoChunks text K).map String.data) =
        joinNl2Ch (p0 :: psc) := by
      rw [hstart, chunkGo_join K (psc.map String.mk) (String.mk p0) [] hps hp0]
      congr 1
      simp [List.map_map, Function.comp_def]
    have hgood : ∀ q ∈ p0 :: psc, hasNl2 q = false ∧ q.getLast? ≠ some '\n' := by
      intro q hq
      constructor
      · apply hno
        rw [hsd]
        exact hq
      · exact noEdgeWSB_getLast (String.mk q) (hparts q (by rw [hsd]; exact hq))
    simp only [pySplitNl2]
    rw [joinStrNl2_data, hjoin, splitNl2Ch_join (p0 :: psc) (by simp) hgood, hsd]

/-- Witness for `chunker_roundtrip_amended`: the edge-clean two-paragraph
input `"ab\n\ncd"` with `max_size = 3` round-trips (it is split into the
two chunks `["ab", "cd"]`). -/
theorem chunker_roundtrip_amended_witness :
    pySplitNl2 (joinStrNl2 (splitTextIntoChunks "ab\n\ncd" 3)) = pySplitNl2 "ab\n\ncd" :=
  chunker_roundtrip_amended "ab\n\ncd" 3 (by decide)

/-!
## Claim C4 — question-generation acceptance bounds
-/

/-- One topic's block loop grows the global list to at most
`max numQ (acc.length + 1)` entries: below the global cap it stops exactly
at `numQ`; at or above the cap it accepts at most one more block. -/
theorem processBlocks_length_le (i : Nat) (t : String) (n : Nat) :
    ∀ (blocks : List String) (acc : List PQuestion),
      (processBlocks i t n blocks acc).length ≤ max n (acc.length + 1) := by
  intro blocks
  induction blocks with
  | nil =>
    intro acc
    simp only [processBlocks]
    omega
  | cons b bs ih =>
    intro acc
    simp only [processBlocks]
    split_ifs with h1 h2
    · simp only [List.length_append, List.length_singleton]
      omega
    · have h3 := ih (acc ++ [⟨i, t, (parseQuestionBlock b).1, (parseQuestionBlock b).2⟩])
      simp only [List.length_append, List.length_singleton] at h2 h3
      omega
    · have h3 := ih acc
      omega

/-- Every question accepted by one topic's block loop either was already in
the global list or carries this topic's index. -/
theorem processBlocks_mem (i : Nat) (t : String) (n : Nat) :
    ∀ (blocks : List String) (acc : List PQuestion) (q : PQuestion),
      q ∈ processBlocks i t n blocks acc → q ∈ acc ∨ q.topic_id = i := by
  intro blocks
  induction blocks with
  | nil =>
    intro acc q hq
    exact Or.inl hq
  | cons b bs ih =>
    intro acc q hq
    simp only [processBlocks] at hq
    split_ifs at hq with h1 h2
    · rcases List.mem_append.mp hq with h | h
      · exact Or.inl h
      · right
        simp only [List.mem_singleton] at h
        subst h
        rfl
    · rcases ih _ _ hq with h | h
      · rcases List.mem_append.mp h with h | h
        · exact Or.inl h
        · right
          simp only [List.mem_singleton] at h
          subst h
          rfl
      · exact Or.inr h
    · exact ih _ _ hq

/-- Global length bound of the topic loop. -/
theorem genQuestionsGo_length (n : Nat) :
    ∀ (ts : List Topic) (idx : Nat) (rs : List (Option String)) (acc : List PQuestion),
      (genQuestionsGo n idx ts rs acc).length ≤ max n acc.length + ts.length := by
  intro ts
  induction ts with
  | nil =>
    intro idx rs acc
    simp only [genQuestionsGo, List.length_nil]
    omega
  | cons t ts ih =>
    intro idx rs acc
    rcases rs with _ | ⟨r, rs⟩
    · have h := ih (idx + 1) [] acc
      simp only [genQuestionsGo, List.length_cons]
      omega
    · rcases r with _ | r
      · have h := ih (idx + 1) rs acc
        simp only [genQuestionsGo, List.length_cons]
        omega
      · have h1 := processBlocks_length_le idx t.title n (pySplitNl2 r) acc
        have h2 := ih (idx + 1) rs (processBlocks idx t.title n (pySplitNl2 r) acc)
        simp only [genQuestionsGo, List.length_cons]
        omega

/-- Every question produced by the topic loop comes from a topic whose
collaborator reply succeeded. -/
theorem genQuestionsGo_mem (n : Nat) :
    ∀ (ts : List Topic) (idx : Nat) (rs : List (Option String)) (acc : List PQuestion)
      (q : PQuestion), q ∈ genQuestionsGo n idx ts rs acc →
      q ∈ acc ∨ ∃ j r, q.topic_id = idx + j ∧ rs.get? j = some (some r) := by
  intro ts
  induction ts with
  | nil =>
    intro idx rs acc q hq
    exact Or.inl hq
  | cons t ts ih =>
    intro idx rs acc q hq
    rcases rs with _ | ⟨r, rs⟩
    · rcases ih (idx + 1) [] acc q hq with h | ⟨j, r, _, hr⟩
      · exact Or.inl h
      · simp [List.get?] at hr
    · rcases r with _ | r
      · rcases ih (idx + 1) rs acc q hq with h | ⟨j, r, hj, hr⟩
        · exact Or.inl h
        · exact Or.inr ⟨j + 1, r, by omega, by simpa using hr⟩
      · rcases ih (idx + 1) rs _ q hq with h | ⟨j, r2, hj, hr⟩
        · rcases processBlocks_mem idx t.title n (pySplitNl2 r) acc q h with h | h
          · exact Or.inl h
          · exact Or.inr ⟨0, r, by omega, rfl⟩
        · exact Or.inr ⟨j + 1, r2, by omega, by simpa using hr⟩

/-- Claim C4, counterexample: with 2 topics and a total of 2 questions, the
first topic's quota is `max(1, 2 // 2) = 1`, yet when its reply parses into
3 question blocks the loop accepts 2 of them (it only checks the GLOBAL
count, after appending), and the second topic's reply then pushes the total
to 3 — both the per-topic-quota bound and the global bound of the claim are
violated. -/
theorem generate_questions_overflow_cex :
    ((genQuestions [⟨"A", ""⟩, ⟨"B", ""⟩]
        [some "1. What is x? guide one\n\n2. What is y? guide two\n\n3. What is z? g3",
         some "Why? because"] 2).length ≤ 2 → False)
    ∧ ((genQuestions [⟨"A", ""⟩, ⟨"B", ""⟩]
        [some "1. What is x? guide one\n\n2. What is y? guide two\n\n3. What is z? g3",
         some "Why? because"] 2).filter (fun q => q.topic_id == 0)).length = 2
    ∧ questionQuotas 2 2 = [1, 1] := by
  decide

/-- Claim C4, amended: a topic whose collaborator call fails (or is absent)
contributes zero questions — every returned question's topic has a
successful reply; within a topic, acceptance stops as soon as the GLOBAL
accepted count reaches `numQ` (not when the topic's quota is filled), and
since each later topic can overshoot by one block the total is bounded by
`numQ + (number of topics)`, not by `numQ`.  Faithful for `topics ≠ []`
(Python raises `ZeroDivisionError` otherwise). -/
theorem generate_questions_amended (topics : List Topic) (replies : List (Option String))
    (numQ : Nat) (_h : topics ≠ []) :
    (∀ q ∈ genQuestions topics replies numQ, ∃ r, replies.get? q.topic_id = some (some r))
    ∧ (genQuestions topics replies numQ).length ≤ numQ + topics.length := by
  constructor
  · intro q hq
    rcases genQuestionsGo_mem numQ topics 0 replies [] q hq with h0 | ⟨j, r, hj, hr⟩
    · simp at h0
    · refine ⟨r, ?_⟩
      rw [hj]
      simpa using hr
  · have h := genQuestionsGo_length numQ topics 0 replies []
    simpa [genQuestions] using h

/-- Witness for `generate_questions_amended`: one topic with a failed call
yields a list within the bound. -/
theorem generate_questions_amended_witness :
    (genQuestions [⟨"A", ""⟩] [none] 1).length ≤ 1 + ([⟨"A", ""⟩] : List Topic).length :=
  (generate_questions_amended [⟨"A", ""⟩] [none] 1 (by decide)).2

/-!
## Claim C3 — an exit command is immediately terminal
-/

/-- Concatenating exit-free traces stays exit-free. -/
theorem noExitReplyB_append : ∀ (a b : List Event), noExitReplyB a = true →
    noExitReplyB b = true → noExitReplyB (a ++ b) = true := by
  intro a
  induction a with
  | nil => intro b _ hb; exact hb
  | cons e a ih =>
    intro b ha hb
    cases e with
    | display m =>
      simp only [List.cons_append, noExitReplyB] at ha ⊢
      exact ih b ha hb
    | ask m r =>
      simp only [List.cons_append, noExitReplyB, Bool.and_eq_true] at ha ⊢
      exact ⟨ha.1, ih b ha.2 hb⟩

/-- An exit-free leading trace does not affect the exit-termination
property of what follows. -/
theorem exitCleanB_append (de : Bool) : ∀ (a b : List Event), noExitReplyB a = true →
    exitCleanB de (a ++ b) = exitCleanB de b := by
  intro a
  induction a with
  | nil => intro b _; rfl
  | cons e a ih =>
    intro b ha
    cases e with
    | display m =>
      simp only [List.cons_append, noExitReplyB] at ha
      simp only [List.cons_append, exitCleanB]
      exact ih b ha
    | ask m r =>
      simp only [List.cons_append, noExitReplyB, Bool.and_eq_true] at ha
      have hr : isExitCmd r = false := by
        have h1 := ha.1
        simpa using h1
      simp only [List.cons_append, exitCleanB]
      rw [if_neg (by simp [hr])]
      exact ih b ha.2

/-- An exit-free trace trivially satisfies the exit-termination
property. -/
theorem noExit_exitClean (de : Bool) (a : List Event) (ha : noExitReplyB a = true) :
    exitCleanB de a = true := by
  have h := exitCleanB_append de a [] ha
  rw [List.append_nil] at h
  rw [h]
  rfl

/-- No exit command contains an affirmative keyword as a substring, so an
exit command always fails the affirmative test. -/
theorem exit_not_affirm (r : String) (h : isExitCmd r = true) :
    isAffirmative r = false := by
  have hmem : pyLower r ∈ exitCommands := by
    unfold isExitCmd at h
    exact List.mem_of_elem_eq_true h
  simp only [exitCommands, List.mem_cons, List.mem_singleton, List.not_mem_nil,
    or_false] at hmem
  rcases hmem with h1 | h1 | h1 | h1 | h1 | h1 <;>
    · unfold isAffirmative
      rw [h1]
      decide

/-- At a decision point, an affirmative reply is never an exit command. -/
theorem affirm_not_exit (r : String) (h : isAffirmative r = true) :
    isExitCmd r = false := by
  by_contra hc
  rw [Bool.not_eq_false] at hc
  rw [exit_not_affirm r hc] at h
  cases h

/-- The follow-up loop: if it ends the session (`bye`) its trace satisfies
the exit-termination property; otherwise no reply in its trace was an exit
command. -/
theorem runFollowUps_spec (de : Bool) (randInt : Nat → Nat) :
    ∀ (fus inputs : List String) (fuc ridx : Nat),
      ((runFollowUps de randInt fus inputs fuc ridx).2.2.2.2 = FuOut.bye →
        exitCleanB de (runFollowUps de randInt fus inputs fuc ridx).1 = true)
      ∧ ((runFollowUps de randInt fus inputs fuc ridx).2.2.2.2 ≠ FuOut.bye →
        noExitReplyB (runFollowUps de randInt fus inputs fuc ridx).1 = true) := by
  intro fus
  induction fus with
  | nil =>
    intro inputs fuc ridx
    constructor
    · intro h; cases h
    · intro _; rfl
  | cons fu fus ih =>
    intro inputs fuc ridx
    rcases hin : takeInput inputs with ⟨ans, inputs1⟩
    simp only [runFollowUps, hin]
    by_cases hex : isExitCmd ans = true
    · rw [if_pos hex]
      constructor
      · intro _
        simp [exitCleanB, hex]
      · intro h
        exact absurd rfl h
    · rw [if_neg hex]
      have hexf : isExitCmd ans = false := by simpa using hex
      by_cases hth : randInt ridx ≤ fuc + 1
      · rw [if_pos hth]
        rcases hin2 : takeInput inputs1 with ⟨dec, inputs2⟩
        simp only [hin2]
        by_cases hex2 : isExitCmd dec = true
        · rw [if_pos hex2]
          constructor
          · intro _
            simp [exitCleanB, hexf, hex2]
          · intro h
            exact absurd rfl h
        · rw [if_neg hex2]
          have hexf2 : isExitCmd dec = false := by simpa using hex2
          by_cases hnt : wantsNextTopic dec = true
          · rw [if_pos hnt]
            constructor
            · intro h; cases h
            · intro _
              simp [noExitReplyB, hexf, hexf2]
          · rw [if_neg hnt]
            rcases hr : runFollowUps de randInt fus inputs2 0 (ridx + 1) with
              ⟨evs, inp3, fuc3, ridx3, out3⟩
            have hspec := ih inputs2 0 (ridx + 1)
            rw [hr] at hspec
            simp only [hr]
            have hpre : noExitReplyB
                [Event.display (followUpPfx de ++ fu), Event.ask "Your answer:" ans,
                 Event.display (thanksMsg de), Event.ask (midContinueMsg de) dec] = true := by
              simp [noExitReplyB, hexf, hexf2]
            constructor
            · intro h
              rw [exitCleanB_append de _ _ hpre]
              exact hspec.1 h
            · intro h
              exact noExitReplyB_append _ _ hpre (hspec.2 h)
      · rw [if_neg hth]
        rcases hr : runFollowUps de randInt fus inputs1 (fuc + 1) (ridx + 1) with
          ⟨evs, inp3, fuc3, ridx3, out3⟩
        have hspec := ih inputs1 (fuc + 1) (ridx + 1)
        rw [hr] at hspec
        simp only [hr]
        have hpre : noExitReplyB
            [Event.display (followUpPfx de ++ fu), Event.ask "Your answer:" ans,
             Event.display (thanksMsg de)] = true := by
          simp [noExitReplyB, hexf]
        constructor
        · intro h
          rw [exitCleanB_append de _ _ hpre]
          exact hspec.1 h
        · intro h
          exact noExitReplyB_append _ _ hpre (hspec.2 h)

/-- The question loop: if it ends the session (`bye`) its trace satisfies
the exit-termination property; otherwise no reply in its trace was an exit
command. -/
theorem runQuestions_spec (de : Bool) (evalAns : TQuestion → String → EvalParts)
    (randInt : Nat → Nat) :
    ∀ (qs : List TQuestion) (qnum : Nat) (inputs : List String) (fuc ridx : Nat),
      ((runQuestions de evalAns randInt qs qnum inputs fuc ridx).2.2.2 = QOut.bye →
        exitCleanB de (runQuestions de evalAns randInt qs qnum inputs fuc ridx).1 = true)
      ∧ ((runQuestions de evalAns randInt qs qnum inputs fuc ridx).2.2.2 ≠ QOut.bye →
        noExitReplyB (runQuestions de evalAns randInt qs qnum inputs fuc ridx).1 = true) := by
  intro qs
  induction qs with
  | nil =>
    intro qnum inputs fuc ridx
    constructor
    · intro h; cases h
    · intro _; rfl
  | cons q qs ih =>
    intro qnum inputs fuc ridx
    rcases hin : takeInput inputs with ⟨ans, inputs1⟩
    simp only [runQuestions, hin]
    by_cases hex : isExitCmd ans = true
    · rw [if_pos hex]
      constructor
      · intro _
        simp [exitCleanB, hex]
      · intro h
        exact absurd rfl h
    · rw [if_neg hex]
      have hexf : isExitCmd ans = false := by simpa using hex
      rcases hfu : runFollowUps de randInt
          (handleFollowUpQuestions (evalAns q ans).follow_up_questions) inputs1 fuc ridx with
        ⟨evsFu, inp2, fuc2, ridx2, fo⟩
      have fspec := runFollowUps_spec de randInt
        (handleFollowUpQuestions (evalAns q ans).follow_up_questions) inputs1 fuc ridx
      rw [hfu] at fspec
      simp only [hfu]
      have hpre : noExitReplyB
          [Event.display (questionHeader de qnum ++ q.question), Event.ask "Your answer:" ans,
           Event.display (feedbackHeader ++ (evalAns q ans).feedback)] = true := by
        simp [noExitReplyB, hexf]
      cases fo with
      | bye =>
        constructor
        · intro _
          rw [exitCleanB_append de _ _ hpre]
          exact fspec.1 rfl
        · intro h
          exact absurd rfl h
      | jump =>
        constructor
        · intro h; cases h
        · intro _
          exact noExitReplyB_append _ _ hpre (fspec.2 (by simp))
      | fin =>
        rcases hq : runQuestions de evalAns randInt qs (qnum + 1) inp2 fuc2 ridx2 with
          ⟨evsQ, inp3, ridx3, qo⟩
        have qspec := ih (qnum + 1) inp2 fuc2 ridx2
        rw [hq] at qspec
        simp only [hq]
        have hfu2 : noExitReplyB evsFu = true := fspec.2 (by simp)
        constructor
        · intro h
          rw [exitCleanB_append de _ _ (noExitReplyB_append _ _ hpre hfu2)]
          exact qspec.1 h
        · intro h
          exact noExitReplyB_append _ _ (noExitReplyB_append _ _ hpre hfu2) (qspec.2 h)

/-- The topic loop: a goodbye end satisfies the exit-termination property,
a completion end has no exit reply in its trace. -/
theorem runTopics_spec (de : Bool) (intro : Topic → String) (genQ : Topic → List TQuestion)
    (evalAns : TQuestion → String → EvalParts) (randInt : Nat → Nat) :
    ∀ (ts : List Topic) (inputs : List String) (ridx : Nat),
      ((runTopics de intro genQ evalAns randInt ts inputs ridx).exited = true →
        exitCleanB de (runTopics de intro genQ evalAns randInt ts inputs ridx).events = true)
      ∧ ((runTopics de intro genQ evalAns randInt ts inputs ridx).exited = false →
        noExitReplyB (runTopics de intro genQ evalAns randInt ts inputs ridx).events = true) := by
  intro ts
  induction ts with
  | nil =>
    intro inputs ridx
    constructor
    · intro h; cases h
    · intro _; rfl
  | cons t ts ih =>
    intro inputs ridx
    simp only [runTopics]
    by_cases hq : (genQ t).isEmpty = true
    · rw [if_pos hq]
      have hspec := ih inputs ridx
      rcases hr : runTopics de intro genQ evalAns randInt ts inputs ridx with
        ⟨evs, inp2, ridx2, ex⟩
      rw [hr] at hspec
      simp only [hr]
      constructor
      · intro h
        simp only [exitCleanB]
        exact hspec.1 h
      · intro h
        simp only [noExitReplyB]
        exact hspec.2 h
    · rw [if_neg hq]
      rcases hrq : runQuestions de evalAns randInt (genQ t) 1 inputs 0 ridx with
        ⟨evsQ, inputs1, ridx1, qo⟩
      have qspec := runQuestions_spec de evalAns randInt (genQ t) 1 inputs 0 ridx
      rw [hrq] at qspec
      simp only [hrq]
      cases qo with
      | bye =>
        constructor
        · intro _
          simp only [exitCleanB]
          exact qspec.1 rfl
        · intro h; cases h
      | fin =>
        rcases hin : takeInput inputs1 with ⟨reply, inputs2⟩
        simp only [hin]
        rcases hnext : runTopics de intro genQ evalAns randInt ts inputs2 ridx1 with
          ⟨evN, inpN, ridxN, exN⟩
        have nspec := ih inputs2 ridx1
        rw [hnext] at nspec
        have hq2 : noExitReplyB evsQ = true := qspec.2 (by simp)
        by_cases haff : isAffirmative reply = true
        · simp only [afterTopicDecision, if_pos haff]
          have hrex : isExitCmd reply = false := affirm_not_exit reply haff
          constructor
          · intro h
            simp only [exitCleanB] at h ⊢
            rw [exitCleanB_append de _ _ hq2]
            simp only [exitCleanB]
            rw [if_neg (by simp [hrex])]
            exact nspec.1 h
          · intro h
            simp only [noExitReplyB]
            refine noExitReplyB_append _ _ hq2 ?_
            simp only [noExitReplyB, hrex]
            simpa using nspec.2 h
        · simp only [afterTopicDecision, if_neg haff]
          constructor
          · intro _
            simp only [exitCleanB]
            rw [exitCleanB_append de _ _ hq2]
            by_cases hex : isExitCmd reply = true <;> simp [exitCleanB, hex]
          · intro h; cases h

/-- Claim C3: in every session — any topic order, any scripted user
inputs, any collaborator behaviour, any `randint` draws — whenever the
reply consumed at a blocking input point (a question answer, a follow-up
answer, or a continue decision) is, case-insensitively, a member of the
exit-command set, the remainder of the trace is exactly the goodbye
message: the session is Done and no further question, follow-up or input
request is ever issued. -/
theorem session_exit_immediately_terminal (de : Bool) (intro : Topic → String)
    (genQ : Topic → List TQuestion) (evalAns : TQuestion → String → EvalParts)
    (randInt : Nat → Nat) (topics : List Topic) (inputs : List String) :
    exitCleanB de (runInteractiveSession de intro genQ evalAns randInt topics inputs) = true := by
  unfold runInteractiveSession
  split_ifs with h
  · rfl
  · have hspec := runTopics_spec de intro genQ evalAns randInt topics inputs 0
    simp only [exitCleanB]
    rcases Bool.eq_false_or_eq_true
        ((runTopics de intro genQ evalAns randInt topics inputs 0).exited) with h1 | h1
    · exact hspec.1 h1
    · exact noExit_exitClean de _ (hspec.2 h1)

/-!
## Claim C7 — completion marker gating and ordering
-/

/-- Claim C7: (a) when the completion marker (lock file) exists,
`preprocess` returns `False` without emitting any action — no collaborator
call, no save, no marker write, so the persisted corpus is untouched; (b)
in every run, if the marker is written at all then the run succeeded and
the action trace is exactly collaborator phase, then save, then marker —
the marker is written only after a successful save and never on a failed
run. -/
theorem preprocess_marker_order (lockExists fileExists : Bool) (text : String)
    (topics : List Topic) (questions : List PQuestion) (saveOk : Bool) :
    (lockExists = true →
      preprocessModel lockExists fileExists text topics questions saveOk = ([], some false))
    ∧ (PAction.mark ∈ (preprocessModel lockExists fileExists text topics questions saveOk).1 →
        (preprocessModel lockExists fileExists text topics questions saveOk).2 = some true ∧
        (preprocessModel lockExists fileExists text topics questions saveOk).1 =
          [PAction.collab, PAction.save, PAction.mark]) := by
  constructor
  · intro h
    subst h
    rfl
  · intro hmark
    unfold preprocessModel at hmark ⊢
    split_ifs at hmark ⊢ <;> simp_all

/-- Witness for `preprocess_marker_order`: the lock-exists short-circuit at
a concrete state, and the marker position in a concrete successful run. -/
theorem preprocess_marker_order_witness :
    preprocessModel true true "t" [⟨"A", "c"⟩] [⟨0, "A", "q?", "g"⟩] true = ([], some false)
    ∧ ((preprocessModel false true "t" [⟨"A", "c"⟩] [⟨0, "A", "q?", "g"⟩] true).2 = some true ∧
        (preprocessModel false true "t" [⟨"A", "c"⟩] [⟨0, "A", "q?", "g"⟩] true).1 =
          [PAction.collab, PAction.save, PAction.mark]) :=
  ⟨(preprocess_marker_order true true "t" [⟨"A", "c"⟩] [⟨0, "A", "q?", "g"⟩] true).1 rfl,
   (preprocess_marker_order false true "t" [⟨"A", "c"⟩] [⟨0, "A", "q?", "g"⟩] true).2 (by decide)⟩

/-!
## Claim C8 — evaluator failure and missing-header behaviour
-/

/-- Claim C8: `_evaluate_answer` is a total function of the collaborator
outcome (it never raises): on a failed call it returns the fixed
language-appropriate consolation message with an empty follow-up section,
and when no follow-up header (searched case-insensitively over the fixed
synonym list) occurs in the reply, the entire reply is the feedback with an
empty follow-up section. -/
theorem evaluate_answer_never_raises (de : Bool) (full : String)
    (h : followUpHeaders.find? (fun hd => pyContains (pyLower full) hd) = none) :
    evaluateAnswer de none = ⟨consolationMsg de, ""⟩
    ∧ evaluateAnswer de (some full) = ⟨full, ""⟩ := by
  constructor
  · rfl
  · simp only [evaluateAnswer]
    rw [h]

/-- Witness for `evaluate_answer_never_raises` at a header-free reply. -/
theorem evaluate_answer_never_raises_witness :
    evaluateAnswer true none = ⟨consolationMsg true, ""⟩
    ∧ evaluateAnswer true (some "Alles gut.") = ⟨"Alles gut.", ""⟩ :=
  evaluate_answer_never_raises true "Alles gut." (by decide)

/-!
## Claim C10 — the evaluator lowercases both parts when a header is found
-/

/-- Claim C10: when some follow-up header occurs in the (lowercased) reply,
`_evaluate_answer` splits the LOWERCASED reply at the first header of the
synonym list, so both the returned feedback and the returned follow-up
section are the (stripped) lowercased forms of the reply's two parts — the
collaborator's original letter casing is not preserved.  (The no-header
case, where casing is kept intact, is `evaluate_answer_never_raises`.) -/
theorem evaluate_answer_lowercases (de : Bool) (full hd : String)
    (h : followUpHeaders.find? (fun x => pyContains (pyLower full) x) = some hd) :
    evaluateAnswer de (some full) =
      ⟨pyStrip (pySplitOnceA (pyLower full) hd).1,
       pyStrip (pySplitOnceA (pyLower full) hd).2⟩ := by
  simp only [evaluateAnswer]
  rw [h]

/-- Witness for `evaluate_answer_lowercases`: a mixed-case reply with a
mixed-case header. -/
theorem evaluate_answer_lowercases_witness :
    evaluateAnswer true (some "OK. Nachfragen: Wieso?") =
      ⟨pyStrip (pySplitOnceA (pyLower "OK. Nachfragen: Wieso?") "nachfragen:").1,
       pyStrip (pySplitOnceA (pyLower "OK. Nachfragen: Wieso?") "nachfragen:").2⟩ :=
  evaluate_answer_lowercases true "OK. Nachfragen: Wieso?" "nachfragen:" (by decide)

/-!
## Claim C9 — the after-topic continue decision
-/

/-- Claim C9, counterexample: the source tests affirmativeness by SUBSTRING
containment, not by membership in the affirmative set.  The reply
`"jawohl"` is not a member of `{"ja", "j", "yes", "y"}`, yet the session
does not transition to Done with the goodbye message — it advances (here
to the remaining topic), because `"j"` occurs inside `"jawohl"`. -/
theorem continue_decision_membership_cex :
    ("jawohl" ∈ yesResponses → False) ∧
    (afterTopicDecision true "jawohl" [] 0
        (runTopics true (fun _ => "i") (fun _ => []) (fun _ _ => ⟨"", ""⟩) (fun _ => 3)
          [⟨"B", "c"⟩] [] 0)).events
      ≠ [Event.ask (contTopicMsg true) "jawohl", Event.display (goodbyeMsg true)] := by
  decide

/-- Claim C9, amended: at the after-topic continue decision, a reply in
which NO affirmative keyword (`"ja"`, `"j"`, `"yes"`, `"y"`) occurs as a
case-insensitive substring transitions the session to Done with the
goodbye message and nothing further; a reply containing one continues with
the remaining (shuffled) topics, which when none remain is exactly the
Done state with the distinct completion message. -/
theorem continue_decision_amended (de : Bool) (intro : Topic → String)
    (genQ : Topic → List TQuestion) (evalAns : TQuestion → String → EvalParts)
    (randInt : Nat → Nat) (ts : List Topic) (reply : String)
    (inputs : List String) (ridx : Nat) :
    (isAffirmative reply = false →
      afterTopicDecision de reply inputs ridx
          (runTopics de intro genQ evalAns randInt ts inputs ridx) =
        ⟨[Event.ask (contTopicMsg de) reply, Event.display (goodbyeMsg de)], inputs, ridx, true⟩)
    ∧ (isAffirmative reply = true →
      afterTopicDecision de reply inputs ridx
          (runTopics de intro genQ evalAns randInt ts inputs ridx) =
        ⟨Event.ask (contTopicMsg de) reply ::
            (runTopics de intro genQ evalAns randInt ts inputs ridx).events,
          (runTopics de intro genQ evalAns randInt ts inputs ridx).inputs,
          (runTopics de intro genQ evalAns randInt ts inputs ridx).ridx,
          (runTopics de intro genQ evalAns randInt ts inputs ridx).exited⟩)
    ∧ (isAffirmative reply = true → ts = [] →
      afterTopicDecision de reply inputs ridx
          (runTopics de intro genQ evalAns randInt ts inputs ridx) =
        ⟨[Event.ask (contTopicMsg de) reply, Event.display (completionMsg de)],
          inputs, ridx, false⟩) := by
  refine ⟨?_, ?_, ?_⟩
  · intro h
    simp [afterTopicDecision, h]
  · intro h
    simp [afterTopicDecision, h]
  · intro h hts
    subst hts
    simp [afterTopicDecision, runTopics, h]

/-- Witness for `continue_decision_amended`: a reply with no affirmative
substring produces the goodbye Done state. -/
theorem continue_decision_amended_witness :
    afterTopicDecision true "nope" [] 0
        (runTopics true (fun _ => "i") (fun _ => []) (fun _ _ => ⟨"", ""⟩) (fun _ => 3) [] [] 0) =
      ⟨[Event.ask (contTopicMsg true) "nope", Event.display (goodbyeMsg true)], [], 0, true⟩ :=
  (continue_decision_amended true (fun _ => "i") (fun _ => []) (fun _ _ => ⟨"", ""⟩)
    (fun _ => 3) [] "nope" [] 0).1 (by decide)

end VoicedTrainer
